import Mathlib

/-!
Verification of the key-hub LLM API gateway.

This file gives a shallow embedding of the parts of the gateway that the
specification makes claims about: the persistent store (packages/server/src/db/index.ts),
the key health checker (packages/server/src/services/keyChecker.ts), the load
balancer (packages/server/src/services/loadBalancer.ts), the auth/rate-limit
middleware (packages/server/src/middleware/index.ts), the model routing table of
the OpenAI-compatible router (packages/server/src/routes/openai.ts), and the
scheduler's per-probe key update (the scheduler module).

Effectful code is embedded by making its inputs explicit: the upstream HTTP
exchange of a probe or relay becomes an `UpstreamOutcome` value, `Math.random()`
becomes a rational parameter in [0,1), `Date.now()` becomes a `Nat` parameter,
and the lowdb singleton becomes an explicit `DbData` value threaded through the
store operations.  JavaScript strings are modelled as `String`/`List Char`,
numbers as `Nat`/`Int`/`ℚ` as appropriate, and `undefined` as `Option.none`.
A TypeScript `Partial` patch object distinguishes an absent property from a
property explicitly present with value `undefined`; `ApiKeyPatch` therefore
nests options for the optional fields.
-/

namespace KeyHub

/-- Channel provider type, from the shared types module. -/
inductive ChannelType where
  | openai
  | anthropic
  | gemini
  | openaiCompatible
deriving DecidableEq

/-- Probe method of a channel, from the shared types module. -/
inductive TestMethod where
  | balance
  | chat
  | models
deriving DecidableEq

/-- Load balance strategy, from the shared types module. -/
inductive LoadBalanceStrategy where
  | roundRobin
  | weighted
  | priority
  | leastUsed
deriving DecidableEq

/-- Status of an API key, from the shared types module. -/
inductive KeyStatus where
  | active
  | invalid
  | quotaExceeded
  | disabled
  | unknown
deriving DecidableEq

/-- Channel record (shared types module).  The TypeScript field `alias` of
ApiKey is renamed `keyAlias` here because `alias` is a Lean keyword. -/
structure Channel where
  id : String
  name : String
  type : ChannelType
  baseUrl : String
  testMethod : TestMethod
  testModel : Option String := none
  proxyId : Option String := none
  loadBalanceStrategy : LoadBalanceStrategy
  enabled : Bool
  createdAt : Nat
  updatedAt : Nat
deriving DecidableEq

/-- ApiKey record (shared types module). -/
structure ApiKey where
  id : String
  channelId : String
  key : String
  keyAlias : Option String := none
  status : KeyStatus
  priority : Int
  weight : Int
  balance : Option Int := none
  lastChecked : Option Nat := none
  lastUsed : Option Nat := none
  errorCount : Nat
  totalRequests : Nat
  createdAt : Nat
  updatedAt : Nat
deriving DecidableEq

/-- Proxy record (shared types module). -/
structure Proxy where
  id : String
  name : String
  host : String
  port : Nat
  username : Option String := none
  password : Option String := none
  enabled : Bool
  createdAt : Nat
  updatedAt : Nat
deriving DecidableEq

/-- Token record (shared types module). -/
structure Token where
  id : String
  name : String
  token : String
  allowedChannels : List String
  rateLimit : Option Nat := none
  enabled : Bool
  createdAt : Nat
  lastUsed : Option Nat := none
deriving DecidableEq

/-- Request log record (shared types module). -/
structure RequestLog where
  id : String
  timestamp : Nat
  tokenId : Option String := none
  channelId : String
  keyId : String
  model : String
  path : String
  method : String
  status : Nat
  latency : Nat
  inputTokens : Option Nat := none
  outputTokens : Option Nat := none
  error : Option String := none
  streaming : Bool
deriving DecidableEq

/-- Settings singleton of the store (db/index.ts, `Database.settings`). -/
structure Settings where
  checkInterval : Nat
  maxLogsRetention : Nat
deriving DecidableEq

/-- The persisted database document (db/index.ts, interface `Database`). -/
structure DbData where
  channels : List Channel
  apiKeys : List ApiKey
  proxies : List Proxy
  tokens : List Token
  logs : List RequestLog
  settings : Settings
deriving DecidableEq

/-- Store operation `deleteChannel` (db/index.ts lines 82-90): find the channel
by id (`findIndex`, -1 when absent), splice it out, and drop every ApiKey whose
`channelId` equals the deleted id, all before the single `db.write()`.
`List.findIdx` returns the length when nothing matches, which models the -1
sentinel of `findIndex`. -/
def deleteChannel (db : DbData) (id : String) : Bool × DbData :=
  let index := db.channels.findIdx (fun c => c.id == id)
  if index < db.channels.length then
    (true,
      { db with
        channels := db.channels.eraseIdx index,
        apiKeys := db.apiKeys.filter (fun k => k.channelId != id) })
  else
    (false, db)

/-- A `Partial<ApiKey>` patch as used by `updateApiKey` (db/index.ts line 120).
The outer option is property presence; for fields that are themselves optional
in ApiKey the inner option is the (possibly `undefined`) property value, since
an object spread copies a property that is present with value `undefined`. -/
structure ApiKeyPatch where
  status : Option KeyStatus := none
  balance : Option (Option Int) := none
  lastChecked : Option (Option Nat) := none
  lastUsed : Option (Option Nat) := none
  errorCount : Option Nat := none
  totalRequests : Option Nat := none
deriving DecidableEq

/-- The merge `{ ...key, ...updates, updatedAt: Date.now() }` of
`updateApiKey` (db/index.ts line 123). -/
def applyPatch (k : ApiKey) (p : ApiKeyPatch) (now : Nat) : ApiKey :=
  { k with
    status := p.status.getD k.status,
    balance := match p.balance with | some b => b | none => k.balance,
    lastChecked := match p.lastChecked with | some b => b | none => k.lastChecked,
    lastUsed := match p.lastUsed with | some b => b | none => k.lastUsed,
    errorCount := p.errorCount.getD k.errorCount,
    totalRequests := p.totalRequests.getD k.totalRequests,
    updatedAt := now }

/-- Core of `updateApiKey` (db/index.ts lines 120-127) on the `apiKeys` array:
find the key by id (`findIndex`, -1 when absent), replace it with the merged
record, and return the merged record. -/
def updateKeyList (l : List ApiKey) (id : String) (p : ApiKeyPatch) (now : Nat) :
    Option ApiKey × List ApiKey :=
  let index := l.findIdx (fun k => k.id == id)
  if h : index < l.length then
    let k := l.get ⟨index, h⟩
    let merged := applyPatch k p now
    (some merged, l.set index merged)
  else
    (none, l)

/-- Store operation `updateApiKey` (db/index.ts lines 120-127). -/
def updateApiKey (db : DbData) (id : String) (p : ApiKeyPatch) (now : Nat) :
    Option ApiKey × DbData :=
  let r := updateKeyList db.apiKeys id p now
  (r.1, { db with apiKeys := r.2 })

/-- Effective log retention: `db.data?.settings.maxLogsRetention || 604800000`
(db/index.ts line 251); JavaScript `||` substitutes the default when the stored
value is the falsy 0. -/
def maxRetentionOf (db : DbData) : Nat :=
  if db.settings.maxLogsRetention = 0 then 604800000 else db.settings.maxLogsRetention

/-- Store operation `addLog` (db/index.ts lines 248-255): push the log, then
keep only logs with `timestamp > Date.now() - maxRetention`, all before the
single `db.write()`.  The cutoff is computed in `Int` because the JavaScript
subtraction can go negative. -/
def addLog (db : DbData) (log : RequestLog) (now : Nat) : DbData :=
  let cutoff : Int := (now : Int) - (maxRetentionOf db : Int)
  { db with logs := (db.logs ++ [log]).filter (fun l => cutoff < (l.timestamp : Int)) }

/-- Store operation `getLogsForStats` (db/index.ts lines 257-259): the logs with
`timestamp >= since`, in stored order. -/
def getLogsForStats (db : DbData) (since : Nat) : List RequestLog :=
  db.logs.filter (fun l => since ≤ l.timestamp)

/-- Result of one key probe (shared types module, `KeyCheckResult`). -/
structure KeyCheckResult where
  keyId : String
  status : KeyStatus
  balance : Option Int := none
  error : Option String := none
  checkedAt : Nat
deriving DecidableEq

/-- Outcome of the single upstream HTTP exchange a probe performs: either the
fetch (or body read) threw, or a response with a status code and body came
back.  `totalAvailable` carries the parsed `total_available` field for the
balance probe. -/
inductive UpstreamOutcome where
  | transportError (msg : String)
  | httpResponse (status : Nat) (body : List Char) (totalAvailable : Option Int)
deriving DecidableEq

/-- The `Response.ok` predicate: status in the range 200-299. -/
def resOk (status : Nat) : Bool := 200 ≤ status && status ≤ 299

/-- Error classifier `handleErrorResponse` (keyChecker.ts lines 186-204):
message `HTTP <status>: <first 200 chars of body>`; 401 and 403 stay
`invalid`, 429 becomes `quota_exceeded`, everything else keeps the initial
`invalid`. -/
def handleErrorResponse (keyId : String) (status : Nat) (body : List Char) (now : Nat) :
    KeyCheckResult :=
  let errorMsg : String := "HTTP " ++ toString status ++ ": " ++ String.mk (body.take 200)
  let st : KeyStatus :=
    if status = 401 || status = 403 then KeyStatus.invalid
    else if status = 429 then KeyStatus.quotaExceeded
    else KeyStatus.invalid
  { keyId := keyId, status := st, error := some errorMsg, checkedAt := now }

/-- Probe for openai / openai-compatible channels (keyChecker.ts `checkOpenAI`):
a transport error is caught and reported `invalid` with the message; an ok
response is `active` (carrying the balance for the balance test method); any
other response goes through `handleErrorResponse`. -/
def checkOpenAI (channel : Channel) (key : ApiKey) (outcome : UpstreamOutcome) (now : Nat) :
    KeyCheckResult :=
  match outcome with
  | UpstreamOutcome.transportError msg =>
    { keyId := key.id, status := KeyStatus.invalid, error := some msg, checkedAt := now }
  | UpstreamOutcome.httpResponse status body totalAvailable =>
    if resOk status then
      if channel.testMethod == TestMethod.balance then
        { keyId := key.id, status := KeyStatus.active, balance := totalAvailable,
          checkedAt := now }
      else
        { keyId := key.id, status := KeyStatus.active, checkedAt := now }
    else handleErrorResponse key.id status body now

/-- Probe for anthropic channels (keyChecker.ts `checkAnthropic`); same
classification, no balance probe. -/
def checkAnthropic (channel : Channel) (key : ApiKey) (outcome : UpstreamOutcome) (now : Nat) :
    KeyCheckResult :=
  match outcome with
  | UpstreamOutcome.transportError msg =>
    { keyId := key.id, status := KeyStatus.invalid, error := some msg, checkedAt := now }
  | UpstreamOutcome.httpResponse status body _ =>
    if resOk status then
      { keyId := key.id, status := KeyStatus.active, checkedAt := now }
    else handleErrorResponse key.id status body now

/-- Probe for gemini channels (keyChecker.ts `checkGemini`); same
classification, no balance probe. -/
def checkGemini (channel : Channel) (key : ApiKey) (outcome : UpstreamOutcome) (now : Nat) :
    KeyCheckResult :=
  match outcome with
  | UpstreamOutcome.transportError msg =>
    { keyId := key.id, status := KeyStatus.invalid, error := some msg, checkedAt := now }
  | UpstreamOutcome.httpResponse status body _ =>
    if resOk status then
      { keyId := key.id, status := KeyStatus.active, checkedAt := now }
    else handleErrorResponse key.id status body now

/-- Dispatcher `checkKey` (keyChecker.ts lines 207-218). -/
def checkKey (channel : Channel) (key : ApiKey) (outcome : UpstreamOutcome) (now : Nat) :
    KeyCheckResult :=
  match channel.type with
  | ChannelType.anthropic => checkAnthropic channel key outcome now
  | ChannelType.gemini => checkGemini channel key outcome now
  | ChannelType.openai => checkOpenAI channel key outcome now
  | ChannelType.openaiCompatible => checkOpenAI channel key outcome now

/-- One entry of the process-local `requestCounts` map (middleware/index.ts
line 33). -/
structure RLRecord where
  count : Nat
  resetAt : Nat
deriving DecidableEq

/-- What the rate limiter does with one request: call `next()` or answer with
a status and the error body fields. -/
inductive RLDecision where
  | pass
  | reject (status : Nat) (message errType : String)
deriving DecidableEq

/-- One execution of `rateLimitMiddleware` (middleware/index.ts lines 35-64)
for a single token, as a state transformer on that token's `requestCounts`
entry.  `rateLimit` is the token's field; `!token.rateLimit` passes through
both when the field is absent and when it is 0. -/
def rateLimitMiddleware (rateLimit : Option Nat) (st : Option RLRecord) (now : Nat) :
    RLDecision × Option RLRecord :=
  match rateLimit with
  | none => (RLDecision.pass, st)
  | some limit =>
    if limit = 0 then (RLDecision.pass, st)
    else
      let r0 : RLRecord :=
        match st with
        | none => { count := 0, resetAt := now + 60000 }
        | some r => if r.resetAt ≤ now then { count := 0, resetAt := now + 60000 } else r
      let r1 : RLRecord := { r0 with count := r0.count + 1 }
      if limit < r1.count then
        (RLDecision.reject 429 "Rate limit exceeded" "rate_limit_error", some r1)
      else
        (RLDecision.pass, some r1)

/-- Fold of `rateLimitMiddleware` over a sequence of request arrival times. -/
def rlRun (rateLimit : Option Nat) (st : Option RLRecord) : List Nat → List RLDecision × Option RLRecord
  | [] => ([], st)
  | t :: ts =>
    let r := rateLimitMiddleware rateLimit st t
    let rest := rlRun rateLimit r.2 ts
    (r.1 :: rest.1, rest.2)

/-- Validation of the `rateLimit` field in `createTokenSchema`
(routes/channels.ts token router: `z.number().int().min(0).optional()`). -/
def rateLimitValid (n : Int) : Bool := 0 ≤ n

/-- Stable insertion of a key into a list sorted by descending `priority`,
modelling one step of the stable `Array.prototype.sort` with comparator
`(a, b) => b.priority - a.priority` used by `prioritySelect`. -/
def insertByPriority (k : ApiKey) : List ApiKey → List ApiKey
  | [] => [k]
  | x :: xs => if x.priority ≤ k.priority then k :: x :: xs else x :: insertByPriority k xs

/-- Stable sort by descending `priority` (the `[...keys].sort((a, b) =>
b.priority - a.priority)` of loadBalancer.ts line 48). -/
def sortByPriority : List ApiKey → List ApiKey
  | [] => []
  | x :: xs => insertByPriority x (sortByPriority xs)

/-- Selector `roundRobinSelect` (loadBalancer.ts lines 28-33); the per-channel
cursor is passed in explicitly.  The JavaScript indexing `keys[i]` is modelled
with `get?`, whose `none` corresponds to `undefined`. -/
def roundRobinSelect (keys : List ApiKey) (currentIndex : Nat) : Option ApiKey :=
  keys.get? (currentIndex % keys.length)

/-- The weight-consuming loop of `weightedSelect` (loadBalancer.ts lines
40-43): subtract each weight from the running random value and stop at the
first key where it reaches 0 or below. -/
def weightedScan : ℚ → List ApiKey → Option ApiKey
  | _, [] => none
  | r, k :: ks =>
    if r - (k.weight : ℚ) ≤ 0 then some k else weightedScan (r - (k.weight : ℚ)) ks

/-- Selector `weightedSelect` (loadBalancer.ts lines 35-45); `rand` is the
value of `Math.random()`. -/
def weightedSelect (keys : List ApiKey) (rand : ℚ) : Option ApiKey :=
  let totalWeight : Int := keys.foldl (fun sum k => sum + k.weight) 0
  if totalWeight = 0 then
    keys.get? (Int.toNat ⌊rand * (keys.length : ℚ)⌋)
  else
    match weightedScan (rand * (totalWeight : ℚ)) keys with
    | some k => some k
    | none => keys.get? (keys.length - 1)

/-- The `reduce` of `prioritySelect` (loadBalancer.ts line 52): keep the key
with the strictly smaller `errorCount`, preferring the accumulator on ties. -/
def errFold (a : ApiKey) (l : List ApiKey) : ApiKey :=
  l.foldl (fun best k => if k.errorCount < best.errorCount then k else best) a

/-- The `reduce` of `leastUsedSelect` (loadBalancer.ts line 56). -/
def usedFold (a : ApiKey) (l : List ApiKey) : ApiKey :=
  l.foldl (fun least x => if x.totalRequests < least.totalRequests then x else least) a

/-- Selector `prioritySelect` (loadBalancer.ts lines 47-53): stable-sort by
descending priority, keep the keys sharing the top priority, and reduce to the
one with the lowest `errorCount` (initial accumulator `topKeys[0]`, and the
reduce runs over the whole of `topKeys`). -/
def prioritySelect (keys : List ApiKey) : Option ApiKey :=
  match sortByPriority keys with
  | [] => none
  | hd :: tl =>
    match (hd :: tl).filter (fun k => k.priority == hd.priority) with
    | [] => none
    | t0 :: ts => some (errFold t0 (t0 :: ts))

/-- Selector `leastUsedSelect` (loadBalancer.ts lines 55-57); the reduce has
initial accumulator `keys[0]` and runs over the whole list. -/
def leastUsedSelect : List ApiKey → Option ApiKey
  | [] => none
  | k :: ks => some (usedFold k (k :: ks))

/-- Dispatcher `selectKey` (loadBalancer.ts lines 6-26): filter to active keys,
return null when none remain, then apply the strategy.  `rrIndex` stands for
the process-local round-robin cursor of the channel and `rand` for
`Math.random()`. -/
def selectKey (keys : List ApiKey) (strategy : LoadBalanceStrategy) (rrIndex : Nat) (rand : ℚ) :
    Option ApiKey :=
  let activeKeys := keys.filter (fun k => k.status == KeyStatus.active)
  if activeKeys.isEmpty then none
  else
    match strategy with
    | LoadBalanceStrategy.roundRobin => roundRobinSelect activeKeys rrIndex
    | LoadBalanceStrategy.weighted => weightedSelect activeKeys rand
    | LoadBalanceStrategy.priority => prioritySelect activeKeys
    | LoadBalanceStrategy.leastUsed => leastUsedSelect activeKeys

/-- The fixed model table `MODEL_CHANNEL_MAP` (routes/openai.ts lines 23-43),
in insertion order, with model names as character lists. -/
def MODEL_CHANNEL_MAP : List (List Char × List ChannelType) :=
  [ ("gpt-4".toList, [ChannelType.openai, ChannelType.openaiCompatible]),
    ("gpt-4-turbo".toList, [ChannelType.openai, ChannelType.openaiCompatible]),
    ("gpt-4o".toList, [ChannelType.openai, ChannelType.openaiCompatible]),
    ("gpt-4o-mini".toList, [ChannelType.openai, ChannelType.openaiCompatible]),
    ("gpt-3.5-turbo".toList, [ChannelType.openai, ChannelType.openaiCompatible]),
    ("o1".toList, [ChannelType.openai, ChannelType.openaiCompatible]),
    ("o1-mini".toList, [ChannelType.openai, ChannelType.openaiCompatible]),
    ("o1-preview".toList, [ChannelType.openai, ChannelType.openaiCompatible]),
    ("claude-3-opus".toList, [ChannelType.anthropic]),
    ("claude-3-sonnet".toList, [ChannelType.anthropic]),
    ("claude-3-haiku".toList, [ChannelType.anthropic]),
    ("claude-3.5-sonnet".toList, [ChannelType.anthropic]),
    ("claude-3-5-sonnet".toList, [ChannelType.anthropic]),
    ("gemini-pro".toList, [ChannelType.gemini]),
    ("gemini-1.5-pro".toList, [ChannelType.gemini]),
    ("gemini-1.5-flash".toList, [ChannelType.gemini]) ]

/-- The `String.prototype.startsWith` check used by `findChannelForModel`
(`model.startsWith(entryName)`), on character lists: the second argument is
the searched-for leading pattern. -/
def strStartsWith : List Char → List Char → Bool
  | _, [] => true
  | [], _ :: _ => false
  | c :: cs, p :: ps => c == p && strStartsWith cs ps

/-- The model-to-type resolution inside `findChannelForModel` (routes/openai.ts
lines 49-60): scan `MODEL_CHANNEL_MAP` in insertion order, take the types of
the first entry whose name is a leading substring of the model, and fall back
to openai / openai-compatible when nothing matches. -/
def modelMatchingTypes (model : List Char) : List ChannelType :=
  match MODEL_CHANNEL_MAP.find? (fun e => strStartsWith model e.1) with
  | some e => e.2
  | none => [ChannelType.openai, ChannelType.openaiCompatible]

/-- Modelled from the spec: the specification (section 4.8 step 2 and section
6) defines model-to-type resolution as a longest-prefix match against the same
fixed table, with the same openai / openai-compatible fallback when no entry
matches.  The fold keeps the matching entry with the greatest name length,
preferring the earlier entry on equal lengths. -/
def longestMatchTypes (model : List Char) : List ChannelType :=
  let best := (MODEL_CHANNEL_MAP.filter (fun e => strStartsWith model e.1)).foldl
    (fun acc e =>
      match acc with
      | none => some e
      | some b => if b.1.length < e.1.length then some e else some b) none
  match best with
  | some e => e.2
  | none => [ChannelType.openai, ChannelType.openaiCompatible]

/-- The `updateApiKey` payload of a completed relay (routes/openai.ts lines
158-162): `lastUsed = Date.now()`, `totalRequests + 1`, and `errorCount` reset
on an ok response and bumped otherwise.  `key` is the selected key object the
route closed over. -/
def relayStatsPatch (key : ApiKey) (now : Nat) (ok : Bool) : ApiKeyPatch :=
  { lastUsed := some (some now),
    totalRequests := some (key.totalRequests + 1),
    errorCount := some (if ok then 0 else key.errorCount + 1) }

/-- The `updateApiKey` payload of the relay catch block (routes/openai.ts lines
199-201): only `errorCount` is written. -/
def relayCatchPatch (key : ApiKey) : ApiKeyPatch :=
  { errorCount := some (key.errorCount + 1) }

/-- The `updateApiKey` payload applied after every probe, identical in
`runKeyCheck` and `checkSingleKey` of the scheduler module: `status`,
`balance` and `lastChecked` come from the probe result (all three properties
are present in the object literal, `balance` possibly with value `undefined`),
and `errorCount` resets on `active` and is bumped otherwise. -/
def probePatch (key : ApiKey) (result : KeyCheckResult) : ApiKeyPatch :=
  { status := some result.status,
    balance := some result.balance,
    lastChecked := some (some result.checkedAt),
    errorCount := some (if result.status == KeyStatus.active then 0 else key.errorCount + 1) }

/-- Concrete inputs used in witness and counterexample theorems below. -/
def exChannel : Channel :=
  { id := "ch1", name := "main", type := ChannelType.openai, baseUrl := "https://api.openai.com",
    testMethod := TestMethod.chat, loadBalanceStrategy := LoadBalanceStrategy.priority,
    enabled := true, createdAt := 0, updatedAt := 0 }

/-- Concrete key used by the C2 witness. -/
def exKey : ApiKey :=
  { id := "k0", channelId := "ch1", key := "sk-0", status := KeyStatus.unknown,
    priority := 50, weight := 50, errorCount := 0, totalRequests := 0,
    createdAt := 0, updatedAt := 0 }

/-- Concrete store used by the C1 witness. -/
def w1ChannelA : Channel :=
  { id := "cA", name := "A", type := ChannelType.openai, baseUrl := "u",
    testMethod := TestMethod.chat, loadBalanceStrategy := LoadBalanceStrategy.roundRobin,
    enabled := true, createdAt := 0, updatedAt := 0 }

/-- Second channel of the C1 witness store. -/
def w1ChannelB : Channel :=
  { id := "cB", name := "B", type := ChannelType.gemini, baseUrl := "u",
    testMethod := TestMethod.chat, loadBalanceStrategy := LoadBalanceStrategy.roundRobin,
    enabled := true, createdAt := 0, updatedAt := 0 }

/-- Key of channel cA in the C1 witness store. -/
def w1Key1 : ApiKey :=
  { id := "k1", channelId := "cA", key := "s1", status := KeyStatus.active,
    priority := 50, weight := 50, errorCount := 0, totalRequests := 0,
    createdAt := 0, updatedAt := 0 }

/-- Key of channel cB in the C1 witness store. -/
def w1Key2 : ApiKey :=
  { id := "k2", channelId := "cB", key := "s2", status := KeyStatus.active,
    priority := 50, weight := 50, errorCount := 0, totalRequests := 0,
    createdAt := 0, updatedAt := 0 }

/-- Store of the C1 witness. -/
def w1Db : DbData :=
  { channels := [w1ChannelA, w1ChannelB], apiKeys := [w1Key1, w1Key2],
    proxies := [], tokens := [], logs := [],
    settings := { checkInterval := 3600000, maxLogsRetention := 604800000 } }

/-- Concrete store for the C3 witness. -/
def w3Key : ApiKey :=
  { id := "k3", channelId := "cA", key := "s3", status := KeyStatus.active,
    priority := 50, weight := 50, errorCount := 4, totalRequests := 10,
    createdAt := 0, updatedAt := 0 }

/-- Store of the C3 witness. -/
def w3Db : DbData :=
  { channels := [], apiKeys := [w3Key], proxies := [], tokens := [], logs := [],
    settings := { checkInterval := 3600000, maxLogsRetention := 604800000 } }

/-- Stored key with a recorded balance, for C6. -/
def c6Key : ApiKey :=
  { id := "ck", channelId := "cA", key := "s", status := KeyStatus.active,
    priority := 50, weight := 50, balance := some 5, errorCount := 2,
    totalRequests := 0, createdAt := 0, updatedAt := 0 }

/-- Probe result without a balance, for C6. -/
def c6Res : KeyCheckResult :=
  { keyId := "ck", status := KeyStatus.active, balance := none, checkedAt := 50 }

/-- Store holding c6Key, for C6. -/
def c6Db : DbData :=
  { channels := [], apiKeys := [c6Key], proxies := [], tokens := [], logs := [],
    settings := { checkInterval := 3600000, maxLogsRetention := 604800000 } }

/-- Early log, for C7. -/
def c7LogA : RequestLog :=
  { id := "a", timestamp := 1, channelId := "c", keyId := "k", model := "m",
    path := "/v1/chat/completions", method := "POST", status := 200, latency := 5,
    streaming := false }

/-- Later log, for C7. -/
def c7LogB : RequestLog :=
  { id := "b", timestamp := 2, channelId := "c", keyId := "k", model := "m",
    path := "/v1/chat/completions", method := "POST", status := 200, latency := 5,
    streaming := false }

/-- Store whose logs are in ascending timestamp order, for C7. -/
def c7Db : DbData :=
  { channels := [], apiKeys := [], proxies := [], tokens := [], logs := [c7LogA, c7LogB],
    settings := { checkInterval := 3600000, maxLogsRetention := 604800000 } }

/-- Key k1 of the C5 example: priority 80, errorCount 3. -/
def exK1 : ApiKey :=
  { id := "k1", channelId := "cX", key := "s1", status := KeyStatus.active,
    priority := 80, weight := 50, errorCount := 3, totalRequests := 0,
    createdAt := 0, updatedAt := 0 }

/-- Key k2 of the C5 example: priority 80, errorCount 0. -/
def exK2 : ApiKey :=
  { id := "k2", channelId := "cX", key := "s2", status := KeyStatus.active,
    priority := 80, weight := 50, errorCount := 0, totalRequests := 0,
    createdAt := 0, updatedAt := 0 }

/-- Key k3 of the C5 example: priority 60, errorCount 0. -/
def exK3 : ApiKey :=
  { id := "k3", channelId := "cX", key := "s3", status := KeyStatus.active,
    priority := 60, weight := 50, errorCount := 0, totalRequests := 0,
    createdAt := 0, updatedAt := 0 }

/-- Active key with weight 0, for the C9 witness. -/
def wc9Key : ApiKey :=
  { id := "k9", channelId := "cX", key := "s9", status := KeyStatus.active,
    priority := 50, weight := 0, errorCount := 0, totalRequests := 0,
    createdAt := 0, updatedAt := 0 }

theorem handleErrorResponse_error (keyId : String) (status : Nat) (body : List Char) (now : Nat) :
    (handleErrorResponse keyId status body now).error
      = some ("HTTP " ++ toString status ++ ": " ++ String.mk (body.take 200)) := by
  unfold handleErrorResponse
  split_ifs <;> rfl

theorem handleErrorResponse_status (keyId : String) (status : Nat) (body : List Char) (now : Nat) :
    (handleErrorResponse keyId status body now).status = KeyStatus.invalid
      ∨ (handleErrorResponse keyId status body now).status = KeyStatus.quotaExceeded := by
  unfold handleErrorResponse
  split_ifs <;> simp

theorem handleErrorResponse_status_429 (keyId : String) (body : List Char) (now : Nat) :
    (handleErrorResponse keyId 429 body now).status = KeyStatus.quotaExceeded := by
  simp [handleErrorResponse]

theorem handleErrorResponse_status_other (keyId : String) (status : Nat) (body : List Char)
    (now : Nat) (h429 : status ≠ 429) :
    (handleErrorResponse keyId status body now).status = KeyStatus.invalid := by
  unfold handleErrorResponse
  split_ifs <;> simp_all

/-- C2: checkKey reports exactly one of active, invalid, quota_exceeded, with
the classification 401/403 to invalid, 429 to quota_exceeded, 2xx to active,
transport failure to invalid with the thrown message, and any other status to
invalid with error HTTP code plus the first 200 characters of the body. -/
theorem C2_checkKey_classification (channel : Channel) (key : ApiKey)
    (outcome : UpstreamOutcome) (now : Nat) (r : KeyCheckResult)
    (hr : r = checkKey channel key outcome now) :
    (r.status = KeyStatus.active ∨ r.status = KeyStatus.invalid
      ∨ r.status = KeyStatus.quotaExceeded)
    ∧ (∀ msg, outcome = UpstreamOutcome.transportError msg →
        r.status = KeyStatus.invalid ∧ r.error = some msg)
    ∧ (∀ st body ta, outcome = UpstreamOutcome.httpResponse st body ta →
        (((st = 401 ∨ st = 403) → r.status = KeyStatus.invalid)
          ∧ (st = 429 → r.status = KeyStatus.quotaExceeded)
          ∧ (resOk st = true → r.status = KeyStatus.active)
          ∧ (resOk st = false → st ≠ 429 →
              r.status = KeyStatus.invalid
                ∧ r.error = some ("HTTP " ++ toString st ++ ": "
                    ++ String.mk (body.take 200))))) := by
  subst hr
  have hresOk401 : resOk 401 = false := rfl
  have hresOk403 : resOk 403 = false := rfl
  have hresOk429 : resOk 429 = false := rfl
  refine ⟨?_, ?_, ?_⟩
  · rcases outcome with msg | ⟨st, body, ta⟩
    · cases hty : channel.type <;>
        simp [checkKey, hty, checkOpenAI, checkAnthropic, checkGemini]
    · by_cases hok : resOk st = true
      · cases hty : channel.type <;>
          simp only [checkKey, hty, checkOpenAI, checkAnthropic, checkGemini, hok, if_true] <;>
          first
            | (split_ifs <;> simp)
            | simp
      · have hok' : resOk st = false := by simpa using hok
        cases hty : channel.type <;>
          simp only [checkKey, hty, checkOpenAI, checkAnthropic, checkGemini, hok',
            Bool.false_eq_true, if_false] <;>
          rcases handleErrorResponse_status key.id st body now with h | h <;> simp [h]
  · intro msg hmsg
    subst hmsg
    cases hty : channel.type <;>
      simp [checkKey, hty, checkOpenAI, checkAnthropic, checkGemini]
  · intro st body ta hresp
    subst hresp
    refine ⟨?_, ?_, ?_, ?_⟩
    · rintro (rfl | rfl) <;>
        cases hty : channel.type <;>
        simp [checkKey, hty, checkOpenAI, checkAnthropic, checkGemini, hresOk401, hresOk403,
          handleErrorResponse]
    · rintro rfl
      cases hty : channel.type <;>
        simp [checkKey, hty, checkOpenAI, checkAnthropic, checkGemini, hresOk429,
          handleErrorResponse_status_429]
    · intro hok
      cases hty : channel.type <;>
        simp only [checkKey, hty, checkOpenAI, checkAnthropic, checkGemini, hok, if_true] <;>
        split_ifs <;> rfl
    · intro hok h429
      cases hty : channel.type <;>
        simp only [checkKey, hty, checkOpenAI, checkAnthropic, checkGemini, hok,
          Bool.false_eq_true, if_false] <;>
        exact ⟨handleErrorResponse_status_other key.id st body now h429,
          handleErrorResponse_error key.id st body now⟩

theorem C2_witness :
    (checkKey exChannel exKey (UpstreamOutcome.httpResponse 500 "oops".toList none) 7).status
        = KeyStatus.invalid
      ∧ (checkKey exChannel exKey (UpstreamOutcome.httpResponse 500 "oops".toList none) 7).error
        = some "HTTP 500: oops" := by
  have h := C2_checkKey_classification exChannel exKey
    (UpstreamOutcome.httpResponse 500 "oops".toList none) 7 _ rfl
  have h2 := (h.2.2 500 "oops".toList none rfl).2.2.2 (by decide) (by decide)
  refine ⟨h2.1, ?_⟩
  rw [h2.2]
  rfl

/-- C10: a token whose rateLimit field is 0, a value the creation validator
accepts, is passed through by the rate-limit middleware without counting,
exactly like a token with the field absent. -/
theorem C10_zero_rateLimit_unlimited :
    rateLimitValid 0 = true
    ∧ (∀ st now, rateLimitMiddleware (some 0) st now = (RLDecision.pass, st))
    ∧ (∀ st now, rateLimitMiddleware (some 0) st now = rateLimitMiddleware none st now)
    ∧ (∀ st ts, rlRun (some 0) st ts = (ts.map (fun _ => RLDecision.pass), st)) := by
  refine ⟨rfl, fun st now => rfl, fun st now => rfl, fun st ts => ?_⟩
  induction ts generalizing st with
  | nil => rfl
  | cons t ts ih => simp [rlRun, rateLimitMiddleware, ih]

theorem rlRun_in_window (L : Nat) (hL : L ≠ 0) :
    ∀ (ts : List Nat) (c R : Nat), (∀ s ∈ ts, s < R) →
      ((rlRun (some L) (some ⟨c, R⟩) ts).2 = some ⟨c + ts.length, R⟩)
      ∧ ((rlRun (some L) (some ⟨c, R⟩) ts).1.length = ts.length)
      ∧ (∀ i, i < ts.length →
          (rlRun (some L) (some ⟨c, R⟩) ts).1.get? i
            = some (if c + i + 1 ≤ L then RLDecision.pass
                else RLDecision.reject 429 "Rate limit exceeded" "rate_limit_error")) := by
  intro ts
  induction ts with
  | nil =>
    intro c R _
    refine ⟨by simp [rlRun], by simp [rlRun], ?_⟩
    intro i hi
    cases hi
  | cons t ts ih =>
    intro c R h
    have ht : t < R := h t (List.mem_cons_self ..)
    have hstep : rateLimitMiddleware (some L) (some ⟨c, R⟩) t
        = (if L < c + 1 then RLDecision.reject 429 "Rate limit exceeded" "rate_limit_error"
            else RLDecision.pass, some ⟨c + 1, R⟩) := by
      simp only [rateLimitMiddleware, hL, Nat.not_le.mpr ht]
      split_ifs <;> simp_all
    obtain ⟨ih2, ihlen, ihget⟩ := ih (c + 1) R (fun s hs => h s (List.mem_cons_of_mem _ hs))
    have hrun : rlRun (some L) (some ⟨c, R⟩) (t :: ts)
        = ((if L < c + 1 then RLDecision.reject 429 "Rate limit exceeded" "rate_limit_error"
              else RLDecision.pass) :: (rlRun (some L) (some ⟨c + 1, R⟩) ts).1,
           (rlRun (some L) (some ⟨c + 1, R⟩) ts).2) := by
      simp [rlRun, hstep]
    refine ⟨?_, ?_, ?_⟩
    · rw [hrun]
      simp only [ih2, List.length_cons]
      have hn : c + 1 + ts.length = c + (ts.length + 1) := by omega
      rw [hn]
    · rw [hrun]
      simp [ihlen]
    · intro i hi
      rw [hrun]
      match i with
      | 0 =>
        by_cases hc : c + 0 + 1 ≤ L
        · have : ¬ L < c + 1 := by omega
          simp [this, hc]
        · have : L < c + 1 := by omega
          simp [this, hc]
      | Nat.succ j =>
        have hj : j < ts.length := by
          simpa [Nat.succ_lt_succ_iff] using hi
        have hg := ihget j hj
        have hre : c + 1 + j + 1 = c + (j + 1) + 1 := by omega
        simpa [List.get?_cons_succ, hre] using hg

/-- C4: for a positive rateLimit L, starting a fresh 60-second window, the
first L requests in the window pass and every later one is rejected with 429
and the rate-limit error body; the first request at or after the window's
resetAt starts a fresh window and is accepted. -/
theorem C4_rate_limit_window (L t u : Nat) (ts : List Nat)
    (hL : 1 ≤ L) (hin : ∀ s ∈ ts, s < t + 60000) (hu : t + 60000 ≤ u) :
    ((rlRun (some L) none (t :: ts)).1.length = ts.length + 1)
    ∧ (∀ i, i < ts.length + 1 →
        (rlRun (some L) none (t :: ts)).1.get? i
          = some (if i + 1 ≤ L then RLDecision.pass
              else RLDecision.reject 429 "Rate limit exceeded" "rate_limit_error"))
    ∧ ((rateLimitMiddleware (some L) (rlRun (some L) none (t :: ts)).2 u).1
        = RLDecision.pass) := by
  have hL0 : L ≠ 0 := by omega
  have hstep : rateLimitMiddleware (some L) none t = (RLDecision.pass, some ⟨1, t + 60000⟩) := by
    simp [rateLimitMiddleware, hL0, Nat.not_lt.mpr hL]
  have hrun : rlRun (some L) none (t :: ts)
      = (RLDecision.pass :: (rlRun (some L) (some ⟨1, t + 60000⟩) ts).1,
         (rlRun (some L) (some ⟨1, t + 60000⟩) ts).2) := by
    simp [rlRun, hstep]
  obtain ⟨h2, hlen, hget⟩ := rlRun_in_window L hL0 ts 1 (t + 60000) hin
  refine ⟨?_, ?_, ?_⟩
  · rw [hrun]
    simp [hlen]
  · intro i hi
    rw [hrun]
    match i with
    | 0 =>
      simp [hL]
    | Nat.succ j =>
      have hj : j < ts.length := by
        simpa [Nat.succ_lt_succ_iff] using hi
      have hg := hget j hj
      have hre : 1 + j + 1 = j + 1 + 1 := by omega
      simpa [List.get?_cons_succ, hre] using hg
  · rw [hrun]
    simp only [h2]
    simp [rateLimitMiddleware, hL0, hu, Nat.not_lt.mpr hL]

theorem C4_witness :
    ((rlRun (some 2) none [0, 1, 2]).1.get? 2
        = some (RLDecision.reject 429 "Rate limit exceeded" "rate_limit_error"))
      ∧ ((rateLimitMiddleware (some 2) (rlRun (some 2) none [0, 1, 2]).2 60000).1
        = RLDecision.pass) := by
  have h := C4_rate_limit_window 2 0 60000 [1, 2] (by decide) (by decide) (by decide)
  refine ⟨?_, h.2.2⟩
  have hg := h.2.1 2 (by decide)
  simpa using hg

theorem channels_eraseIdx_findIdx (id : String) :
    ∀ (l : List Channel), ((l.map Channel.id).Nodup) →
      ∀ c ∈ l.eraseIdx (l.findIdx (fun c => c.id == id)), c.id ≠ id := by
  intro l
  induction l with
  | nil =>
    intro _ c hc
    cases hc
  | cons x xs ih =>
    intro hnd c hc
    have hnd2 : (x.id ∉ xs.map Channel.id) ∧ (xs.map Channel.id).Nodup := by
      simpa [List.nodup_cons] using hnd
    by_cases hx : x.id = id
    · have hfi : (x :: xs).findIdx (fun c => c.id == id) = 0 := by
        simp [List.findIdx_cons, hx]
      rw [hfi] at hc
      intro hcid
      exact hnd2.1 (by
        rw [hx, ← hcid]
        exact List.mem_map_of_mem _ hc)
    · have hbx : (x.id == id) = false := by
        simpa using hx
      have hfi : (x :: xs).findIdx (fun c => c.id == id)
          = xs.findIdx (fun c => c.id == id) + 1 := by
        simp [List.findIdx_cons, hbx]
      rw [hfi] at hc
      rcases List.mem_cons.mp hc with rfl | hc2
      · exact hx
      · exact ih hnd2.2 c hc2

/-- C1: for a store whose channel ids are distinct, deleting a present channel
id succeeds, removes that channel, removes exactly the keys of that channel in
the same mutation, and leaves the keys of the other channels in place. -/
theorem C1_deleteChannel_cascade (db : DbData) (c : Channel)
    (hnd : (db.channels.map Channel.id).Nodup) (hc : c ∈ db.channels) :
    ((deleteChannel db c.id).1 = true)
    ∧ (∀ c2 ∈ (deleteChannel db c.id).2.channels, c2.id ≠ c.id)
    ∧ ((deleteChannel db c.id).2.apiKeys
        = db.apiKeys.filter (fun k => k.channelId != c.id))
    ∧ (∀ k ∈ (deleteChannel db c.id).2.apiKeys, k.channelId ≠ c.id)
    ∧ (∀ k ∈ db.apiKeys, k.channelId ≠ c.id → k ∈ (deleteChannel db c.id).2.apiKeys) := by
  have hex : ∃ x ∈ db.channels, (fun ch => ch.id == c.id) x = true := ⟨c, hc, by simp⟩
  have hlt := List.findIdx_lt_length_of_exists hex
  have heq : deleteChannel db c.id
      = (true,
         { db with
           channels := db.channels.eraseIdx (db.channels.findIdx (fun ch => ch.id == c.id)),
           apiKeys := db.apiKeys.filter (fun k => k.channelId != c.id) }) := by
    unfold deleteChannel
    simp only [if_pos hlt]
  rw [heq]
  refine ⟨rfl, ?_, rfl, ?_, ?_⟩
  · intro c2 hc2
    exact channels_eraseIdx_findIdx c.id db.channels hnd c2 hc2
  · intro k hk
    have := (List.mem_filter.mp hk).2
    simpa using this
  · intro k hk hne
    exact List.mem_filter.mpr ⟨hk, by simpa using hne⟩

theorem C1_witness :
    ((deleteChannel w1Db "cA").1 = true)
    ∧ (∀ k ∈ (deleteChannel w1Db "cA").2.apiKeys, k.channelId ≠ "cA")
    ∧ w1Key2 ∈ (deleteChannel w1Db "cA").2.apiKeys := by
  have h := C1_deleteChannel_cascade w1Db w1ChannelA (by decide) (by decide)
  exact ⟨h.1, h.2.2.2.1, h.2.2.2.2 w1Key2 (by decide) (by decide)⟩

theorem updateKeyList_spec (p : ApiKeyPatch) (now : Nat) :
    ∀ (l : List ApiKey) (k : ApiKey), ((l.map ApiKey.id).Nodup) → k ∈ l →
      ((updateKeyList l k.id p now).1 = some (applyPatch k p now))
      ∧ (applyPatch k p now ∈ (updateKeyList l k.id p now).2)
      ∧ (∀ j ∈ l, j.id ≠ k.id → j ∈ (updateKeyList l k.id p now).2)
      ∧ (∀ j ∈ (updateKeyList l k.id p now).2, j = applyPatch k p now ∨ j ∈ l) := by
  intro l
  induction l with
  | nil =>
    intro k _ hk
    cases hk
  | cons x xs ih =>
    intro k hnd hk
    have hnd2 : (x.id ∉ xs.map ApiKey.id) ∧ (xs.map ApiKey.id).Nodup := by
      simpa [List.nodup_cons] using hnd
    by_cases hx : x.id = k.id
    · have hkx : k = x := by
        rcases List.mem_cons.mp hk with rfl | hk2
        · rfl
        · exact absurd (hx ▸ List.mem_map_of_mem _ hk2) hnd2.1
      subst hkx
      have heq : updateKeyList (k :: xs) k.id p now
          = (some (applyPatch k p now), applyPatch k p now :: xs) := by
        unfold updateKeyList
        have hfi : (k :: xs).findIdx (fun a => a.id == k.id) = 0 := by
          simp [List.findIdx_cons]
        simp [hfi]
      rw [heq]
      refine ⟨rfl, List.mem_cons_self .., ?_, ?_⟩
      · intro j hj hne
        rcases List.mem_cons.mp hj with rfl | hj2
        · exact absurd rfl hne
        · exact List.mem_cons_of_mem _ hj2
      · intro j hj
        rcases List.mem_cons.mp hj with rfl | hj2
        · exact Or.inl rfl
        · exact Or.inr (List.mem_cons_of_mem _ hj2)
    · have hk2 : k ∈ xs := by
        rcases List.mem_cons.mp hk with rfl | h2
        · exact absurd rfl hx
        · exact h2
      obtain ⟨ih1, ih2, ih3, ih4⟩ := ih k hnd2.2 hk2
      have hbx : (x.id == k.id) = false := by
        simpa using hx
      have hfi : (x :: xs).findIdx (fun a => a.id == k.id)
          = xs.findIdx (fun a => a.id == k.id) + 1 := by
        simp [List.findIdx_cons, hbx]
      have heq : updateKeyList (x :: xs) k.id p now
          = ((updateKeyList xs k.id p now).1, x :: (updateKeyList xs k.id p now).2) := by
        unfold updateKeyList
        rw [hfi]
        by_cases hlt : xs.findIdx (fun a => a.id == k.id) < xs.length
        · rw [dif_pos (by simpa [Nat.succ_lt_succ_iff] using hlt), dif_pos hlt]
          simp
        · rw [dif_neg (by simpa [Nat.succ_lt_succ_iff] using hlt), dif_neg hlt]
      rw [heq]
      refine ⟨ih1, List.mem_cons_of_mem _ ih2, ?_, ?_⟩
      · intro j hj hne
        rcases List.mem_cons.mp hj with rfl | hj2
        · exact List.mem_cons_self ..
        · exact List.mem_cons_of_mem _ (ih3 j hj2 hne)
      · intro j hj
        rcases List.mem_cons.mp hj with rfl | hj2
        · exact Or.inr (List.mem_cons_self ..)
        · rcases ih4 j hj2 with h | h
          · exact Or.inl h
          · exact Or.inr (List.mem_cons_of_mem _ h)

/-- C3: after a relay that got an upstream response, the selected key is
updated with lastUsed = now, totalRequests + 1, and errorCount reset to 0 on a
2xx response and bumped otherwise, leaving its status and the other keys
untouched; after a transport failure only errorCount is bumped, and lastUsed,
totalRequests and status keep their values. -/
theorem C3_relay_bookkeeping (db : DbData) (k : ApiKey) (now : Nat) (ok : Bool)
    (hnd : (db.apiKeys.map ApiKey.id).Nodup) (hk : k ∈ db.apiKeys) :
    (∃ k2,
      ((updateApiKey db k.id (relayStatsPatch k now ok) now).1 = some k2)
      ∧ k2.lastUsed = some now
      ∧ k2.totalRequests = k.totalRequests + 1
      ∧ k2.errorCount = (if ok then 0 else k.errorCount + 1)
      ∧ k2.status = k.status
      ∧ (ok = true → k2.errorCount ≤ k.errorCount)
      ∧ (ok = false → k.errorCount < k2.errorCount)
      ∧ k2 ∈ (updateApiKey db k.id (relayStatsPatch k now ok) now).2.apiKeys
      ∧ (∀ j ∈ db.apiKeys, j.id ≠ k.id →
          j ∈ (updateApiKey db k.id (relayStatsPatch k now ok) now).2.apiKeys))
    ∧ (∃ k3,
      ((updateApiKey db k.id (relayCatchPatch k) now).1 = some k3)
      ∧ k3.errorCount = k.errorCount + 1
      ∧ k3.lastUsed = k.lastUsed
      ∧ k3.totalRequests = k.totalRequests
      ∧ k3.status = k.status
      ∧ k3.balance = k.balance
      ∧ k3.lastChecked = k.lastChecked
      ∧ k3 ∈ (updateApiKey db k.id (relayCatchPatch k) now).2.apiKeys
      ∧ (∀ j ∈ db.apiKeys, j.id ≠ k.id →
          j ∈ (updateApiKey db k.id (relayCatchPatch k) now).2.apiKeys)) := by
  constructor
  · obtain ⟨h1, h2, h3, _⟩ := updateKeyList_spec (relayStatsPatch k now ok) now db.apiKeys k hnd hk
    refine ⟨applyPatch k (relayStatsPatch k now ok) now, ?_, ?_, ?_, ?_, ?_, ?_, ?_, ?_, ?_⟩
    · simpa [updateApiKey] using h1
    · simp [applyPatch, relayStatsPatch]
    · simp [applyPatch, relayStatsPatch]
    · simp [applyPatch, relayStatsPatch]
    · simp [applyPatch, relayStatsPatch]
    · intro hok
      simp [applyPatch, relayStatsPatch, hok]
    · intro hok
      simp [applyPatch, relayStatsPatch, hok]
    · simpa [updateApiKey] using h2
    · intro j hj hne
      simpa [updateApiKey] using h3 j hj hne
  · obtain ⟨h1, h2, h3, _⟩ := updateKeyList_spec (relayCatchPatch k) now db.apiKeys k hnd hk
    refine ⟨applyPatch k (relayCatchPatch k) now, ?_, ?_, ?_, ?_, ?_, ?_, ?_, ?_, ?_⟩
    · simpa [updateApiKey] using h1
    · simp [applyPatch, relayCatchPatch]
    · simp [applyPatch, relayCatchPatch]
    · simp [applyPatch, relayCatchPatch]
    · simp [applyPatch, relayCatchPatch]
    · simp [applyPatch, relayCatchPatch]
    · simp [applyPatch, relayCatchPatch]
    · simpa [updateApiKey] using h2
    · intro j hj hne
      simpa [updateApiKey] using h3 j hj hne

theorem C3_witness :
    ∃ k2,
      ((updateApiKey w3Db w3Key.id (relayStatsPatch w3Key 77 true) 77).1 = some k2)
      ∧ k2.lastUsed = some 77
      ∧ k2.totalRequests = w3Key.totalRequests + 1
      ∧ k2.errorCount ≤ w3Key.errorCount := by
  obtain ⟨⟨k2, h1, h2, h3, _, _, h6, _⟩, _⟩ :=
    C3_relay_bookkeeping w3Db w3Key 77 true (by decide) (by decide)
  exact ⟨k2, h1, h2, h3, h6 rfl⟩

/-- C6 corrected: after a probe the key is updated in one step with status,
lastChecked and balance taken from the probe result (the stored balance is
overwritten even when the result carries none, because the update object's
balance property is present with value undefined), and errorCount reset on
active and bumped otherwise. -/
theorem C6_probe_update (db : DbData) (k : ApiKey) (res : KeyCheckResult) (now : Nat)
    (hnd : (db.apiKeys.map ApiKey.id).Nodup) (hk : k ∈ db.apiKeys) :
    ∃ k2,
      ((updateApiKey db k.id (probePatch k res) now).1 = some k2)
      ∧ k2.status = res.status
      ∧ k2.lastChecked = some res.checkedAt
      ∧ k2.balance = res.balance
      ∧ k2.errorCount = (if res.status = KeyStatus.active then 0 else k.errorCount + 1)
      ∧ k2 ∈ (updateApiKey db k.id (probePatch k res) now).2.apiKeys
      ∧ (∀ j ∈ db.apiKeys, j.id ≠ k.id →
          j ∈ (updateApiKey db k.id (probePatch k res) now).2.apiKeys) := by
  obtain ⟨h1, h2, h3, _⟩ := updateKeyList_spec (probePatch k res) now db.apiKeys k hnd hk
  refine ⟨applyPatch k (probePatch k res) now, ?_, ?_, ?_, ?_, ?_, ?_, ?_⟩
  · simpa [updateApiKey] using h1
  · simp [applyPatch, probePatch]
  · simp [applyPatch, probePatch]
  · simp [applyPatch, probePatch]
  · by_cases hs : res.status = KeyStatus.active
    · simp [applyPatch, probePatch, hs]
    · have hbs : (res.status == KeyStatus.active) = false := by
        simpa using hs
      simp [applyPatch, probePatch, hs, hbs]
  · simpa [updateApiKey] using h2
  · intro j hj hne
    simpa [updateApiKey] using h3 j hj hne

theorem C6_witness :
    ∃ k2,
      ((updateApiKey c6Db c6Key.id (probePatch c6Key c6Res) 99).1 = some k2)
      ∧ k2.status = c6Res.status
      ∧ k2.balance = c6Res.balance := by
  obtain ⟨k2, h1, h2, _, h4, _⟩ := C6_probe_update c6Db c6Key c6Res 99 (by decide) (by decide)
  exact ⟨k2, h1, h2, h4⟩

theorem C6_counterexample :
    c6Res.balance = none
    ∧ c6Key.balance = some 5
    ∧ ((updateApiKey c6Db c6Key.id (probePatch c6Key c6Res) 99).1.map ApiKey.balance
        = some none) := by decide

/-- C7 corrected: getLogsForStats returns exactly the stored logs with
timestamp at least t, in stored order and not re-sorted, and addLog appends
and garbage-collects in the same mutation, so that every retained log is
within the effective retention window. -/
theorem C7_logs_retention (db : DbData) (t : Nat) (log : RequestLog) (now : Nat) :
    ((getLogsForStats db t).Sublist db.logs)
    ∧ (∀ l ∈ getLogsForStats db t, t ≤ l.timestamp)
    ∧ (∀ l ∈ db.logs, t ≤ l.timestamp → l ∈ getLogsForStats db t)
    ∧ (∀ l ∈ (addLog db log now).logs, (now : Int) - l.timestamp < maxRetentionOf db)
    ∧ (∀ l ∈ (addLog db log now).logs, (now : Int) - l.timestamp ≤ maxRetentionOf db)
    ∧ (∀ l ∈ db.logs ++ [log], (now : Int) - (maxRetentionOf db : Int) < l.timestamp →
        l ∈ (addLog db log now).logs) := by
  refine ⟨List.filter_sublist _, ?_, ?_, ?_, ?_, ?_⟩
  · intro l hl
    have := (List.mem_filter.mp hl).2
    simpa using this
  · intro l hl ht
    exact List.mem_filter.mpr ⟨hl, by simpa using ht⟩
  · intro l hl
    have := (List.mem_filter.mp hl).2
    have hgt : (now : Int) - (maxRetentionOf db : Int) < l.timestamp := by simpa using this
    omega
  · intro l hl
    have := (List.mem_filter.mp hl).2
    have hgt : (now : Int) - (maxRetentionOf db : Int) < l.timestamp := by simpa using this
    omega
  · intro l hl hgt
    exact List.mem_filter.mpr ⟨hl, by simpa using hgt⟩

theorem C7_witness :
    (c7LogB ∈ getLogsForStats c7Db 2)
    ∧ (∀ l ∈ getLogsForStats c7Db 2, 2 ≤ l.timestamp) := by
  have h := C7_logs_retention c7Db 2 c7LogA 10
  exact ⟨h.2.2.1 c7LogB (by decide) (by decide), h.2.1⟩

theorem C7_counterexample :
    getLogsForStats c7Db 0 = [c7LogA, c7LogB]
    ∧ c7LogA.timestamp < c7LogB.timestamp
    ∧ ¬ List.Pairwise (fun a b : RequestLog => b.timestamp ≤ a.timestamp)
        (getLogsForStats c7Db 0) := by decide

theorem mem_insertByPriority (k y : ApiKey) :
    ∀ l : List ApiKey, y ∈ insertByPriority k l ↔ y = k ∨ y ∈ l := by
  intro l
  induction l with
  | nil => simp [insertByPriority]
  | cons x xs ih =>
    by_cases hx : x.priority ≤ k.priority
    · simp only [insertByPriority, if_pos hx, List.mem_cons]
    · simp only [insertByPriority, if_neg hx, List.mem_cons, ih]
      tauto

theorem mem_sortByPriority (y : ApiKey) :
    ∀ l : List ApiKey, y ∈ sortByPriority l ↔ y ∈ l := by
  intro l
  induction l with
  | nil => simp [sortByPriority]
  | cons x xs ih =>
    simp only [sortByPriority, mem_insertByPriority, ih, List.mem_cons]

theorem sortByPriority_ne_nil (l : List ApiKey) (h : l ≠ []) : sortByPriority l ≠ [] := by
  cases l with
  | nil => exact absurd rfl h
  | cons x xs =>
    simp only [sortByPriority]
    cases hs : sortByPriority xs with
    | nil => simp [insertByPriority]
    | cons b bs =>
      by_cases hb : b.priority ≤ x.priority <;> simp [insertByPriority, hb]

theorem pairwise_insertByPriority (k : ApiKey) :
    ∀ l : List ApiKey,
      l.Pairwise (fun a b => b.priority ≤ a.priority) →
      (insertByPriority k l).Pairwise (fun a b => b.priority ≤ a.priority) := by
  intro l
  induction l with
  | nil =>
    intro _
    simp [insertByPriority]
  | cons x xs ih =>
    intro hp
    obtain ⟨hx1, hx2⟩ := List.pairwise_cons.mp hp
    by_cases hx : x.priority ≤ k.priority
    · rw [insertByPriority, if_pos hx]
      refine List.pairwise_cons.mpr ⟨?_, hp⟩
      intro b hb
      rcases List.mem_cons.mp hb with rfl | hb2
      · exact hx
      · exact le_trans (hx1 b hb2) hx
    · rw [insertByPriority, if_neg hx]
      refine List.pairwise_cons.mpr ⟨?_, ih hx2⟩
      intro b hb
      rcases (mem_insertByPriority k b xs).mp hb with rfl | hb2
      · exact le_of_not_le hx
      · exact hx1 b hb2

theorem pairwise_sortByPriority :
    ∀ l : List ApiKey, (sortByPriority l).Pairwise (fun a b => b.priority ≤ a.priority) := by
  intro l
  induction l with
  | nil => simp [sortByPriority]
  | cons x xs ih => exact pairwise_insertByPriority x (sortByPriority xs) ih

theorem filter_insertByPriority (p : Int) (k : ApiKey) :
    ∀ l : List ApiKey,
      (insertByPriority k l).filter (fun a => a.priority == p)
        = if k.priority = p then k :: l.filter (fun a => a.priority == p)
          else l.filter (fun a => a.priority == p) := by
  intro l
  induction l with
  | nil =>
    by_cases hk : k.priority = p
    · simp [insertByPriority, List.filter_cons, List.filter_nil, hk]
    · have hb : (k.priority == p) = false := by simpa using hk
      simp [insertByPriority, List.filter_cons, List.filter_nil, hb, hk]
  | cons x xs ih =>
    by_cases hx : x.priority ≤ k.priority
    · rw [insertByPriority, if_pos hx]
      by_cases hk : k.priority = p <;>
        by_cases hxp : x.priority = p <;>
        simp [List.filter_cons, hk, hxp]
    · rw [insertByPriority, if_neg hx]
      have hxk : k.priority < x.priority := lt_of_not_le hx
      by_cases hk : k.priority = p
      · have hxp : x.priority ≠ p := by omega
        simp [List.filter_cons, hxp, ih, hk]
      · by_cases hxp : x.priority = p <;> simp [List.filter_cons, hxp, ih, hk]

theorem filter_sortByPriority (p : Int) :
    ∀ l : List ApiKey,
      (sortByPriority l).filter (fun a => a.priority == p)
        = l.filter (fun a => a.priority == p) := by
  intro l
  induction l with
  | nil => rfl
  | cons x xs ih =>
    rw [sortByPriority, filter_insertByPriority]
    by_cases hx : x.priority = p <;> simp [List.filter_cons, hx, ih]

theorem errFold_cons (a x : ApiKey) (l : List ApiKey) :
    errFold a (x :: l) = errFold (if x.errorCount < a.errorCount then x else a) l := rfl

theorem errFold_cons_self (a : ApiKey) (l : List ApiKey) :
    errFold a (a :: l) = errFold a l := by
  rw [errFold_cons, if_neg (lt_irrefl a.errorCount)]

theorem errFold_mem : ∀ (l : List ApiKey) (a : ApiKey), errFold a l ∈ a :: l := by
  intro l
  induction l with
  | nil =>
    intro a
    simp [errFold]
  | cons x xs ih =>
    intro a
    rw [errFold_cons]
    by_cases hc : x.errorCount < a.errorCount
    · rw [if_pos hc]
      rcases List.mem_cons.mp (ih x) with h | h
      · rw [h]
        simp
      · simp [List.mem_cons, h]
    · rw [if_neg hc]
      rcases List.mem_cons.mp (ih a) with h | h
      · rw [h]
        simp
      · simp [List.mem_cons, h]

theorem errFold_min :
    ∀ (l : List ApiKey) (a : ApiKey) (k : ApiKey), k ∈ a :: l →
      (errFold a l).errorCount ≤ k.errorCount := by
  intro l
  induction l with
  | nil =>
    intro a k hk
    rcases List.mem_cons.mp hk with rfl | h
    · exact le_refl _
    · cases h
  | cons x xs ih =>
    intro a k hk
    rw [errFold_cons]
    by_cases hc : x.errorCount < a.errorCount
    · rw [if_pos hc]
      rcases List.mem_cons.mp hk with h | hk2
      · rw [h]
        exact le_trans (ih x x (List.mem_cons_self ..)) (le_of_lt hc)
      · exact ih x k hk2
    · rw [if_neg hc]
      rcases List.mem_cons.mp hk with h | hk2
      · rw [h]
        exact ih a a (List.mem_cons_self ..)
      · rcases List.mem_cons.mp hk2 with h | hk3
        · rw [h]
          exact le_trans (ih a a (List.mem_cons_self ..)) (le_of_not_lt hc)
        · exact ih a k (List.mem_cons_of_mem _ hk3)

theorem errFold_first :
    ∀ (l : List ApiKey) (a : ApiKey),
      ∃ pre post, a :: l = pre ++ (errFold a l) :: post
        ∧ ∀ k ∈ pre, (errFold a l).errorCount < k.errorCount := by
  intro l
  induction l with
  | nil =>
    intro a
    exact ⟨[], [], by simp [errFold], by simp⟩
  | cons x xs ih =>
    intro a
    rw [errFold_cons]
    by_cases hc : x.errorCount < a.errorCount
    · rw [if_pos hc]
      obtain ⟨pre, post, hdec, hpre⟩ := ih x
      refine ⟨a :: pre, post, by rw [List.cons_append, ← hdec], ?_⟩
      intro k hk
      rcases List.mem_cons.mp hk with rfl | hk2
      · exact lt_of_le_of_lt (errFold_min xs x x (List.mem_cons_self ..)) hc
      · exact hpre k hk2
    · rw [if_neg hc]
      obtain ⟨pre, post, hdec, hpre⟩ := ih a
      cases pre with
      | nil =>
        have ha : a = errFold a xs := by
          simpa using congrArg (fun t => t.head?) hdec
        have hpost : xs = post := by
          simpa using congrArg (fun t => t.tail) hdec
        refine ⟨[], x :: xs, ?_, by simp⟩
        simp [← ha]
      | cons q pre2 =>
        have hq : a = q := by
          simpa using congrArg (fun t => t.head?) hdec
        have htl : xs = pre2 ++ (errFold a xs) :: post := by
          simpa using congrArg (fun t => t.tail) hdec
        have hqa : (errFold a xs).errorCount < a.errorCount := by
          have := hpre q (List.mem_cons_self ..)
          rwa [← hq] at this
        refine ⟨a :: x :: pre2, post, ?_, ?_⟩
        · rw [List.cons_append, List.cons_append, ← htl]
        · intro k hk
          rcases List.mem_cons.mp hk with rfl | hk2
          · exact hqa
          · rcases List.mem_cons.mp hk2 with rfl | hk3
            · exact lt_of_lt_of_le hqa (le_of_not_lt hc)
            · exact hpre k (List.mem_cons_of_mem _ hk3)

theorem usedFold_mem : ∀ (l : List ApiKey) (a : ApiKey), usedFold a l ∈ a :: l := by
  intro l
  induction l with
  | nil =>
    intro a
    simp [usedFold]
  | cons x xs ih =>
    intro a
    rw [show usedFold a (x :: xs)
        = usedFold (if x.totalRequests < a.totalRequests then x else a) xs from rfl]
    by_cases hc : x.totalRequests < a.totalRequests
    · rw [if_pos hc]
      rcases List.mem_cons.mp (ih x) with h | h
      · rw [h]
        simp
      · simp [List.mem_cons, h]
    · rw [if_neg hc]
      rcases List.mem_cons.mp (ih a) with h | h
      · rw [h]
        simp
      · simp [List.mem_cons, h]

theorem filter_eq_append_decomp (q : ApiKey → Bool) :
    ∀ (l A B : List ApiKey) (x : ApiKey),
      l.filter q = A ++ x :: B →
      ∃ pre post, l = pre ++ x :: post ∧ pre.filter q = A := by
  intro l
  induction l with
  | nil =>
    intro A B x h
    rw [List.filter_nil] at h
    exact absurd h.symm (List.append_ne_nil_of_right_ne_nil A (by simp))
  | cons y ys ih =>
    intro A B x h
    by_cases hq : q y = true
    · rw [List.filter_cons_of_pos hq] at h
      cases A with
      | nil =>
        have hy : y = x := by simpa using congrArg (fun t => t.head?) h
        refine ⟨[], ys, by simp [hy], by simp⟩
      | cons a A2 =>
        have hy : y = a := by simpa using congrArg (fun t => t.head?) h
        have htl : ys.filter q = A2 ++ x :: B := by
          simpa using congrArg (fun t => t.tail) h
        obtain ⟨pre2, post2, hdec, hfil⟩ := ih A2 B x htl
        refine ⟨y :: pre2, post2, by rw [List.cons_append, ← hdec], ?_⟩
        rw [List.filter_cons_of_pos hq, hfil, hy]
    · rw [List.filter_cons_of_neg hq] at h
      obtain ⟨pre2, post2, hdec, hfil⟩ := ih A B x h
      refine ⟨y :: pre2, post2, by rw [List.cons_append, ← hdec], ?_⟩
      rw [List.filter_cons_of_neg hq, hfil]

theorem prioritySelect_spec (keys : List ApiKey) (r : ApiKey)
    (hr : prioritySelect keys = some r) :
    r ∈ keys
    ∧ (∀ k ∈ keys, k.priority ≤ r.priority)
    ∧ (∀ k ∈ keys, k.priority = r.priority → r.errorCount ≤ k.errorCount)
    ∧ (∃ pre post, keys = pre ++ r :: post
        ∧ ∀ k ∈ pre, k.priority < r.priority ∨ r.errorCount < k.errorCount) := by
  rcases hs : sortByPriority keys with _ | ⟨hd, tl⟩
  · rw [prioritySelect, hs] at hr
    cases hr
  · have hfhd : ((fun k => k.priority == hd.priority) hd) = true := by simp
    have hflt : (hd :: tl).filter (fun k => k.priority == hd.priority)
        = hd :: tl.filter (fun k => k.priority == hd.priority) :=
      List.filter_cons_of_pos hfhd
    have hrr : r = errFold hd (tl.filter (fun k => k.priority == hd.priority)) := by
      rw [prioritySelect, hs] at hr
      dsimp only at hr
      rw [hflt] at hr
      dsimp only at hr
      rw [← errFold_cons_self]
      exact (Option.some.inj hr).symm
    have hsorted := pairwise_sortByPriority keys
    rw [hs] at hsorted
    obtain ⟨hhd, _⟩ := List.pairwise_cons.mp hsorted
    have hmax : ∀ k ∈ keys, k.priority ≤ hd.priority := by
      intro k hk
      have : k ∈ hd :: tl := by
        rw [← hs]
        exact (mem_sortByPriority k keys).mpr hk
      rcases List.mem_cons.mp this with h | h
      · rw [h]
      · exact hhd k h
    have htop : (hd :: tl).filter (fun k => k.priority == hd.priority)
        = keys.filter (fun k => k.priority == hd.priority) := by
      rw [← hs, filter_sortByPriority]
    have hrmem : r ∈ keys.filter (fun k => k.priority == hd.priority) := by
      rw [← htop, hflt, hrr]
      exact errFold_mem _ hd
    have hrkeys : r ∈ keys := (List.mem_filter.mp hrmem).1
    have hrpr : r.priority = hd.priority := by
      have := (List.mem_filter.mp hrmem).2
      simpa using this
    refine ⟨hrkeys, ?_, ?_, ?_⟩
    · intro k hk
      rw [hrpr]
      exact hmax k hk
    · intro k hk hkp
      have hkf : k ∈ (hd :: tl).filter (fun a => a.priority == hd.priority) := by
        rw [htop]
        exact List.mem_filter.mpr ⟨hk, by simp [hkp, ← hrpr]⟩
      rw [hflt] at hkf
      rw [hrr]
      exact errFold_min _ hd k hkf
    · obtain ⟨preT, postT, hdecT, hpreT⟩ :=
        errFold_first (tl.filter (fun k => k.priority == hd.priority)) hd
      have hkeysfil : keys.filter (fun k => k.priority == hd.priority)
          = preT ++ r :: postT := by
        rw [← htop, hflt, hdecT, hrr]
      obtain ⟨pre, post, hdec, hfil⟩ :=
        filter_eq_append_decomp (fun k => k.priority == hd.priority) keys preT postT r
          hkeysfil
      refine ⟨pre, post, hdec, ?_⟩
      intro k hk
      by_cases hkp : k.priority = hd.priority
      · right
        have : k ∈ pre.filter (fun a => a.priority == hd.priority) :=
          List.mem_filter.mpr ⟨hk, by simp [hkp]⟩
        rw [hfil] at this
        have := hpreT k this
        rwa [← hrr] at this
      · left
        have hkk : k ∈ keys := by
          rw [hdec]
          exact List.mem_append_left _ hk
        have := hmax k hkk
        rw [hrpr]
        omega

/-- C5: under the priority strategy on a non-empty active key list, the
selected key has maximal priority, minimal errorCount among the keys sharing
that priority, and is the earliest such key in the original order; in
particular the spec's example with k1 (80, err 3), k2 (80, err 0), k3 (60,
err 0) selects k2. -/
theorem C5_priority_selection :
    (∀ (keys : List ApiKey) (r : ApiKey), prioritySelect keys = some r →
      r ∈ keys
      ∧ (∀ k ∈ keys, k.priority ≤ r.priority)
      ∧ (∀ k ∈ keys, k.priority = r.priority → r.errorCount ≤ k.errorCount)
      ∧ (∃ pre post, keys = pre ++ r :: post
          ∧ ∀ k ∈ pre, k.priority < r.priority ∨ r.errorCount < k.errorCount))
    ∧ prioritySelect [exK1, exK2, exK3] = some exK2 := by
  constructor
  · intro keys r hr
    exact prioritySelect_spec keys r hr
  · decide

theorem C5_witness :
    exK2 ∈ [exK1, exK2, exK3]
    ∧ (∀ k ∈ [exK1, exK2, exK3], k.priority ≤ exK2.priority)
    ∧ (∀ k ∈ [exK1, exK2, exK3], k.priority = exK2.priority →
        exK2.errorCount ≤ k.errorCount) := by
  have h := C5_priority_selection.1 [exK1, exK2, exK3] exK2 (by decide)
  exact ⟨h.1, h.2.1, h.2.2.1⟩

theorem floorIndex_lt (r : ℚ) (n : Nat) (h0 : 0 ≤ r) (h1 : r < 1) (hn : 0 < n) :
    (⌊r * (n : ℚ)⌋).toNat < n := by
  have h2 : (0 : ℚ) < n := by exact_mod_cast hn
  have hlt : r * (n : ℚ) < n := by
    calc r * (n : ℚ) < 1 * n := mul_lt_mul_of_pos_right h1 h2
    _ = n := one_mul _
  have hfl : ⌊r * (n : ℚ)⌋ < (n : ℤ) := by
    apply Int.floor_lt.mpr
    push_cast
    exact hlt
  omega

theorem weightedScan_mem :
    ∀ (l : List ApiKey) (r : ℚ) (k : ApiKey), weightedScan r l = some k → k ∈ l := by
  intro l
  induction l with
  | nil =>
    intro r k h
    cases h
  | cons x xs ih =>
    intro r k h
    rw [weightedScan] at h
    by_cases hc : r - (x.weight : ℚ) ≤ 0
    · rw [if_pos hc] at h
      exact List.mem_cons.mpr (Or.inl (Option.some.inj h).symm)
    · rw [if_neg hc] at h
      exact List.mem_cons_of_mem _ (ih _ k h)

theorem roundRobinSelect_spec (keys : List ApiKey) (i : Nat) (h : keys ≠ []) :
    ∃ k, roundRobinSelect keys i = some k ∧ k ∈ keys := by
  have hlen : 0 < keys.length := List.length_pos.mpr h
  have hmod : i % keys.length < keys.length := Nat.mod_lt _ hlen
  exact ⟨keys.get ⟨i % keys.length, hmod⟩, List.get?_eq_get hmod, List.get_mem ..⟩

theorem weightedSelect_spec (keys : List ApiKey) (rand : ℚ)
    (h0 : 0 ≤ rand) (h1 : rand < 1) (h : keys ≠ []) :
    ∃ k, weightedSelect keys rand = some k ∧ k ∈ keys := by
  have hlen : 0 < keys.length := List.length_pos.mpr h
  simp only [weightedSelect]
  by_cases htw : (keys.foldl (fun sum k => sum + k.weight) 0) = 0
  · rw [if_pos htw]
    have hidx := floorIndex_lt rand keys.length h0 h1 hlen
    exact ⟨keys.get ⟨_, hidx⟩, List.get?_eq_get hidx, List.get_mem ..⟩
  · rw [if_neg htw]
    rcases hscan : weightedScan
        (rand * ((keys.foldl (fun sum k => sum + k.weight) 0 : Int) : ℚ)) keys
      with _ | k
    · have hidx : keys.length - 1 < keys.length := by omega
      exact ⟨keys.get ⟨_, hidx⟩, List.get?_eq_get hidx, List.get_mem ..⟩
    · exact ⟨k, rfl, weightedScan_mem keys _ k hscan⟩

theorem prioritySelect_isSome (keys : List ApiKey) (h : keys ≠ []) :
    ∃ k, prioritySelect keys = some k ∧ k ∈ keys := by
  rcases hs : sortByPriority keys with _ | ⟨hd, tl⟩
  · exact absurd hs (sortByPriority_ne_nil keys h)
  · have hflt : (hd :: tl).filter (fun k => k.priority == hd.priority)
        = hd :: tl.filter (fun k => k.priority == hd.priority) :=
      List.filter_cons_of_pos (by simp)
    refine ⟨errFold hd (hd :: tl.filter (fun k => k.priority == hd.priority)), ?_, ?_⟩
    · rw [prioritySelect, hs]
      dsimp only
      rw [hflt]
    · have hm := errFold_mem (hd :: tl.filter (fun k => k.priority == hd.priority)) hd
      have hm2 : errFold hd (hd :: tl.filter (fun k => k.priority == hd.priority))
          ∈ hd :: tl := by
        rcases List.mem_cons.mp hm with h' | h'
        · rw [h']
          simp
        · rcases List.mem_cons.mp h' with h'' | h''
          · rw [h'']
            simp
          · exact List.mem_cons_of_mem _ (List.mem_filter.mp h'').1
      have : errFold hd (hd :: tl.filter (fun k => k.priority == hd.priority))
          ∈ sortByPriority keys := by
        rw [hs]
        exact hm2
      exact (mem_sortByPriority _ keys).mp this

theorem leastUsedSelect_spec (keys : List ApiKey) (h : keys ≠ []) :
    ∃ k, leastUsedSelect keys = some k ∧ k ∈ keys := by
  cases keys with
  | nil => exact absurd rfl h
  | cons x xs =>
    refine ⟨usedFold x (x :: xs), rfl, ?_⟩
    have hm := usedFold_mem (x :: xs) x
    rcases List.mem_cons.mp hm with h' | h'
    · rw [h']
      simp
    · exact h'

theorem selectKey_some_conclusion (keys : List ApiKey) (s : LoadBalanceStrategy)
    (rrIndex : Nat) (rand : ℚ) (k0 : ApiKey)
    (hsel : selectKey keys s rrIndex rand = some k0)
    (hk0 : k0 ∈ keys ∧ k0.status = KeyStatus.active)
    (hmem : ∀ k, k ∈ keys.filter (fun a => a.status == KeyStatus.active) →
      k ∈ keys ∧ k.status = KeyStatus.active)
    (hval : ∀ k, selectKey keys s rrIndex rand = some k →
      k ∈ keys.filter (fun a => a.status == KeyStatus.active)) :
    ((selectKey keys s rrIndex rand = none ↔ ∀ k ∈ keys, k.status ≠ KeyStatus.active))
    ∧ (∀ k, selectKey keys s rrIndex rand = some k →
        k ∈ keys ∧ k.status = KeyStatus.active) := by
  constructor
  · rw [hsel]
    constructor
    · intro h
      exact absurd h (Option.some_ne_none k0)
    · intro hall
      exact absurd hk0.2 (hall k0 hk0.1)
  · intro k hk
    exact hmem k (hval k hk)

/-- C9: selectKey returns null exactly when the input holds no active key, and
otherwise returns an element of the input with status active, for every
strategy, cursor and random draw (in particular the weighted strategy with all
weights 0). -/
theorem C9_selectKey_safety (keys : List ApiKey) (strategy : LoadBalanceStrategy)
    (rrIndex : Nat) (rand : ℚ) (h0 : 0 ≤ rand) (h1 : rand < 1) :
    ((selectKey keys strategy rrIndex rand = none
        ↔ ∀ k ∈ keys, k.status ≠ KeyStatus.active))
    ∧ (∀ k, selectKey keys strategy rrIndex rand = some k →
        k ∈ keys ∧ k.status = KeyStatus.active) := by
  have hmemA : ∀ k, k ∈ keys.filter (fun a => a.status == KeyStatus.active) →
      k ∈ keys ∧ k.status = KeyStatus.active := by
    intro k hk
    have := List.mem_filter.mp hk
    exact ⟨this.1, by simpa using this.2⟩
  have hnil : keys.filter (fun a => a.status == KeyStatus.active) = []
      ↔ ∀ k ∈ keys, k.status ≠ KeyStatus.active := by
    rw [List.filter_eq_nil_iff]
    constructor
    · intro hall k hk
      have := hall k hk
      simpa using this
    · intro hall k hk
      simpa using hall k hk
  by_cases hAe : keys.filter (fun a => a.status == KeyStatus.active) = []
  · have hsel : selectKey keys strategy rrIndex rand = none := by
      simp [selectKey, hAe]
    constructor
    · rw [hsel]
      constructor
      · intro _
        exact hnil.mp hAe
      · intro _
        rfl
    · intro k hk
      rw [hsel] at hk
      cases hk
  · have hisEmpty : (keys.filter (fun a => a.status == KeyStatus.active)).isEmpty = false := by
      rcases hl : keys.filter (fun a => a.status == KeyStatus.active) with _ | ⟨y, ys⟩
      · exact absurd hl hAe
      · rw [hl]
        rfl
    cases strategy with
    | roundRobin =>
      obtain ⟨k0, hk0, hm⟩ :=
        roundRobinSelect_spec (keys.filter (fun a => a.status == KeyStatus.active)) rrIndex hAe
      have hsel : selectKey keys LoadBalanceStrategy.roundRobin rrIndex rand = some k0 := by
        simp only [selectKey, hisEmpty, Bool.false_eq_true, if_false]
        exact hk0
      refine selectKey_some_conclusion keys _ rrIndex rand k0 hsel (hmemA k0 hm) hmemA ?_
      intro k hk
      rw [hsel] at hk
      rw [← Option.some.inj hk]
      exact hm
    | weighted =>
      obtain ⟨k0, hk0, hm⟩ :=
        weightedSelect_spec (keys.filter (fun a => a.status == KeyStatus.active)) rand h0 h1 hAe
      have hsel : selectKey keys LoadBalanceStrategy.weighted rrIndex rand = some k0 := by
        simp only [selectKey, hisEmpty, Bool.false_eq_true, if_false]
        exact hk0
      refine selectKey_some_conclusion keys _ rrIndex rand k0 hsel (hmemA k0 hm) hmemA ?_
      intro k hk
      rw [hsel] at hk
      rw [← Option.some.inj hk]
      exact hm
    | priority =>
      obtain ⟨k0, hk0, hm⟩ :=
        prioritySelect_isSome (keys.filter (fun a => a.status == KeyStatus.active)) hAe
      have hsel : selectKey keys LoadBalanceStrategy.priority rrIndex rand = some k0 := by
        simp only [selectKey, hisEmpty, Bool.false_eq_true, if_false]
        exact hk0
      refine selectKey_some_conclusion keys _ rrIndex rand k0 hsel (hmemA k0 hm) hmemA ?_
      intro k hk
      rw [hsel] at hk
      rw [← Option.some.inj hk]
      exact hm
    | leastUsed =>
      obtain ⟨k0, hk0, hm⟩ :=
        leastUsedSelect_spec (keys.filter (fun a => a.status == KeyStatus.active)) hAe
      have hsel : selectKey keys LoadBalanceStrategy.leastUsed rrIndex rand = some k0 := by
        simp only [selectKey, hisEmpty, Bool.false_eq_true, if_false]
        exact hk0
      refine selectKey_some_conclusion keys _ rrIndex rand k0 hsel (hmemA k0 hm) hmemA ?_
      intro k hk
      rw [hsel] at hk
      rw [← Option.some.inj hk]
      exact hm

theorem C9_witness :
    (selectKey [wc9Key] LoadBalanceStrategy.weighted 0 (1 / 2) ≠ none)
    ∧ (∀ k, selectKey [wc9Key] LoadBalanceStrategy.weighted 0 (1 / 2) = some k →
        k ∈ [wc9Key] ∧ k.status = KeyStatus.active) := by
  have h := C9_selectKey_safety [wc9Key] LoadBalanceStrategy.weighted 0 (1 / 2)
    (by norm_num) (by norm_num)
  refine ⟨?_, h.2⟩
  intro hnone
  exact (h.1.mp hnone wc9Key (by decide)) (by decide)

theorem strStartsWith_iff : ∀ (s pat : List Char), strStartsWith s pat = true ↔ pat <+: s := by
  intro s
  induction s with
  | nil =>
    intro pat
    cases pat with
    | nil => simp [strStartsWith]
    | cons p ps => simp [strStartsWith]
  | cons c cs ih =>
    intro pat
    cases pat with
    | nil => simp [strStartsWith]
    | cons p ps =>
      show (c == p && strStartsWith cs ps) = true ↔ p :: ps <+: c :: cs
      rw [List.cons_prefix_iff, Bool.and_eq_true, beq_iff_eq, ih ps]
      constructor
      · rintro ⟨h1, h2⟩
        exact ⟨h1.symm, h2⟩
      · rintro ⟨h1, h2⟩
        exact ⟨h1.symm, h2⟩

theorem prefixComparable :
    ∀ (l₃ l₁ l₂ : List Char), l₁ <+: l₃ → l₂ <+: l₃ → l₁ <+: l₂ ∨ l₂ <+: l₁ := by
  intro l₃
  induction l₃ with
  | nil =>
    intro l₁ l₂ h1 _
    left
    rw [List.prefix_nil.mp h1]
    exact List.nil_prefix
  | cons c t₃ ih =>
    intro l₁ l₂ h1 h2
    cases l₁ with
    | nil =>
      left
      exact List.nil_prefix
    | cons a t₁ =>
      cases l₂ with
      | nil =>
        right
        exact List.nil_prefix
      | cons b t₂ =>
        obtain ⟨ha, h1t⟩ := List.cons_prefix_iff.mp h1
        obtain ⟨hb, h2t⟩ := List.cons_prefix_iff.mp h2
        rcases ih t₁ t₂ h1t h2t with h | h
        · left
          exact List.cons_prefix_iff.mpr ⟨ha.trans hb.symm, h⟩
        · right
          exact List.cons_prefix_iff.mpr ⟨hb.trans ha.symm, h⟩

theorem tableCoherent :
    ∀ e1 ∈ MODEL_CHANNEL_MAP, ∀ e2 ∈ MODEL_CHANNEL_MAP, e1.1 <+: e2.1 → e1.2 = e2.2 := by
  decide

theorem matchingAgree (model : List Char) (e1 e2 : List Char × List ChannelType)
    (h1 : e1 ∈ MODEL_CHANNEL_MAP) (h2 : e2 ∈ MODEL_CHANNEL_MAP)
    (m1 : strStartsWith model e1.1 = true) (m2 : strStartsWith model e2.1 = true) :
    e1.2 = e2.2 := by
  have p1 := (strStartsWith_iff model e1.1).mp m1
  have p2 := (strStartsWith_iff model e2.1).mp m2
  rcases prefixComparable model e1.1 e2.1 p1 p2 with h | h
  · exact tableCoherent e1 h1 e2 h2 h
  · exact (tableCoherent e2 h2 e1 h1 h).symm

theorem pickFold_spec :
    ∀ (l : List (List Char × List ChannelType)) (acc : Option (List Char × List ChannelType)),
      ((l.foldl (fun acc e =>
          match acc with
          | none => some e
          | some b => if b.1.length < e.1.length then some e else some b) acc) = none →
        acc = none ∧ l = [])
      ∧ (∀ e2, (l.foldl (fun acc e =>
          match acc with
          | none => some e
          | some b => if b.1.length < e.1.length then some e else some b) acc) = some e2 →
        acc = some e2 ∨ e2 ∈ l) := by
  intro l
  induction l with
  | nil =>
    intro acc
    exact ⟨fun h => ⟨h, rfl⟩, fun e2 h => Or.inl h⟩
  | cons x xs ih =>
    intro acc
    constructor
    · intro h
      rw [List.foldl_cons] at h
      obtain ⟨hstep, _⟩ := (ih _).1 h
      exfalso
      cases acc with
      | none => exact Option.some_ne_none x hstep
      | some b =>
        dsimp only at hstep
        by_cases hc : b.1.length < x.1.length
        · rw [if_pos hc] at hstep
          exact Option.some_ne_none x hstep
        · rw [if_neg hc] at hstep
          exact Option.some_ne_none b hstep
    · intro e2 h
      rw [List.foldl_cons] at h
      rcases (ih _).2 e2 h with hstep | hmem
      · cases acc with
        | none =>
          dsimp only at hstep
          exact Or.inr (List.mem_cons.mpr (Or.inl (Option.some.inj hstep).symm))
        | some b =>
          dsimp only at hstep
          by_cases hc : b.1.length < x.1.length
          · rw [if_pos hc] at hstep
            exact Or.inr (List.mem_cons.mpr (Or.inl (Option.some.inj hstep).symm))
          · rw [if_neg hc] at hstep
            exact Or.inl hstep
      · exact Or.inr (List.mem_cons_of_mem _ hmem)

/-- C8 corrected: the first-match scan of the model table equals the spec's
longest-prefix match for every model string; models with a gpt- or o1 leading
substring resolve to openai / openai-compatible, any model matched by a table
entry resolves to that entry's types (so claude-* and gemini-* table entries
resolve to anthropic and gemini respectively), and a model matching no entry
falls back to openai / openai-compatible. -/
theorem C8_model_routing :
    (∀ model : List Char, modelMatchingTypes model = longestMatchTypes model)
    ∧ (∀ model : List Char, strStartsWith model "gpt-".toList = true →
        modelMatchingTypes model = [ChannelType.openai, ChannelType.openaiCompatible])
    ∧ (∀ model : List Char, strStartsWith model "o1".toList = true →
        modelMatchingTypes model = [ChannelType.openai, ChannelType.openaiCompatible])
    ∧ (∀ model e, e ∈ MODEL_CHANNEL_MAP → strStartsWith model e.1 = true →
        modelMatchingTypes model = e.2)
    ∧ (∀ model : List Char, (∀ e ∈ MODEL_CHANNEL_MAP, strStartsWith model e.1 = false) →
        modelMatchingTypes model = [ChannelType.openai, ChannelType.openaiCompatible]) := by
  refine ⟨?_, ?_, ?_, ?_, ?_⟩
  · intro model
    rcases hf : MODEL_CHANNEL_MAP.find? (fun e => strStartsWith model e.1) with _ | e1
    · have hfil : MODEL_CHANNEL_MAP.filter (fun e => strStartsWith model e.1) = [] := by
        rw [List.filter_eq_nil_iff]
        intro e he
        exact List.find?_eq_none.mp hf e he
      rw [modelMatchingTypes, hf]
      rw [longestMatchTypes]
      rw [hfil]
      rfl
    · have hp1 : strStartsWith model e1.1 = true := by simpa using List.find?_some hf
      have hm1 : e1 ∈ MODEL_CHANNEL_MAP := List.mem_of_find?_eq_some hf
      rcases hres : (MODEL_CHANNEL_MAP.filter (fun e => strStartsWith model e.1)).foldl
          (fun acc e =>
            match acc with
            | none => some e
            | some b => if b.1.length < e.1.length then some e else some b) none
        with _ | e2
      · exfalso
        have h2 := (pickFold_spec (MODEL_CHANNEL_MAP.filter
            (fun e => strStartsWith model e.1)) none).1 hres
        have : e1 ∈ MODEL_CHANNEL_MAP.filter (fun e => strStartsWith model e.1) :=
          List.mem_filter.mpr ⟨hm1, hp1⟩
        rw [h2.2] at this
        cases this
      · have h2 := (pickFold_spec (MODEL_CHANNEL_MAP.filter
            (fun e => strStartsWith model e.1)) none).2 e2 hres
        have he2f : e2 ∈ MODEL_CHANNEL_MAP.filter (fun e => strStartsWith model e.1) := by
          rcases h2 with h | h
          · cases h
          · exact h
        obtain ⟨hm2, hp2⟩ := List.mem_filter.mp he2f
        rw [modelMatchingTypes, hf]
        rw [longestMatchTypes]
        rw [hres]
        exact matchingAgree model e1 e2 hm1 hm2 hp1 hp2
  · intro model hm
    rcases hf : MODEL_CHANNEL_MAP.find? (fun e => strStartsWith model e.1) with _ | e1
    · rw [modelMatchingTypes, hf]
    · have hp1 : strStartsWith model e1.1 = true := by simpa using List.find?_some hf
      have hm1 : e1 ∈ MODEL_CHANNEL_MAP := List.mem_of_find?_eq_some hf
      have hcomp := prefixComparable model e1.1 "gpt-".toList
        ((strStartsWith_iff model e1.1).mp hp1) ((strStartsWith_iff model _).mp hm)
      have hval : ∀ e ∈ MODEL_CHANNEL_MAP,
          (e.1 <+: "gpt-".toList ∨ "gpt-".toList <+: e.1) →
          e.2 = [ChannelType.openai, ChannelType.openaiCompatible] := by decide
      rw [modelMatchingTypes, hf]
      exact hval e1 hm1 hcomp
  · intro model hm
    rcases hf : MODEL_CHANNEL_MAP.find? (fun e => strStartsWith model e.1) with _ | e1
    · rw [modelMatchingTypes, hf]
    · have hp1 : strStartsWith model e1.1 = true := by simpa using List.find?_some hf
      have hm1 : e1 ∈ MODEL_CHANNEL_MAP := List.mem_of_find?_eq_some hf
      have hcomp := prefixComparable model e1.1 "o1".toList
        ((strStartsWith_iff model e1.1).mp hp1) ((strStartsWith_iff model _).mp hm)
      have hval : ∀ e ∈ MODEL_CHANNEL_MAP,
          (e.1 <+: "o1".toList ∨ "o1".toList <+: e.1) →
          e.2 = [ChannelType.openai, ChannelType.openaiCompatible] := by decide
      rw [modelMatchingTypes, hf]
      exact hval e1 hm1 hcomp
  · intro model e he hm
    rcases hf : MODEL_CHANNEL_MAP.find? (fun e => strStartsWith model e.1) with _ | e1
    · exfalso
      have := List.find?_eq_none.mp hf e he
      rw [hm] at this
      exact this rfl
    · have hp1 : strStartsWith model e1.1 = true := by simpa using List.find?_some hf
      have hm1 : e1 ∈ MODEL_CHANNEL_MAP := List.mem_of_find?_eq_some hf
      rw [modelMatchingTypes, hf]
      exact matchingAgree model e1 e hm1 he hp1 hm
  · intro model hall
    have hf : MODEL_CHANNEL_MAP.find? (fun e => strStartsWith model e.1) = none := by
      rw [List.find?_eq_none]
      intro e he
      rw [hall e he]
      exact Bool.false_ne_true
    rw [modelMatchingTypes, hf]

theorem C8_witness :
    modelMatchingTypes "claude-3-opus-20240229".toList = [ChannelType.anthropic] := by
  exact C8_model_routing.2.2.2.1 "claude-3-opus-20240229".toList
    ("claude-3-opus".toList, [ChannelType.anthropic]) (by decide) (by decide)

theorem C8_counterexample :
    strStartsWith "claude-2".toList "claude-".toList = true
    ∧ modelMatchingTypes "claude-2".toList
        = [ChannelType.openai, ChannelType.openaiCompatible]
    ∧ modelMatchingTypes "claude-2".toList ≠ [ChannelType.anthropic] := by decide

end KeyHub
